import Mathlib

/-
Shallow embedding of TBXark/registry-sync (src/main.go) and proofs about it.

The program is a daemon that mirrors container images between registries:
it loads a JSON configuration (list of source/target image pairs, per-registry
credentials, cycle duration, prune switch), runs one pull/tag/push job per
image pair, prunes untagged local images, reloads the configuration and
sleeps, forever.

External collaborators (the docker engine API, the filesystem, HTTP) are
modelled as explicit environments of result-valued functions; the control
flow of each Go function in src/main.go is transcribed case by case.
-/

namespace RegistrySync

/-- Mirrors `type RegistryAuth struct` in src/main.go: `Username` and
`Password` come from JSON; `Auth` has no json tag in the source but Go
matches the JSON key `auth` to it case-insensitively, and it is otherwise
the computed base64 credential token. -/
structure RegistryAuth where
  Username : String
  Password : String
  Auth : String
deriving Repr, DecidableEq

/-- Mirrors `type ImageConfig struct` in src/main.go. -/
structure ImageConfig where
  Source : String
  Target : String
deriving Repr, DecidableEq

/-- Mirrors `type Config struct` in src/main.go. A Go map is embedded as an
association list fixing one iteration order (Go map iteration order is
unspecified; the list order stands for the order the range loop happens to
see). A `nil` or absent map and an empty map are both the empty list: the
source only ever tests `!= nil` together with `len(...) > 0`, so the two are
not distinguished by any modelled code path. -/
structure Config where
  Images : List ImageConfig
  Auths : List (String × RegistryAuth)
  Duration : Int
  DisablePrune : Bool
deriving Repr, DecidableEq

/-- Go `strings.HasPrefix(s, pre)`: true when `pre` is an initial segment
of `s`. -/
def goHasPre (s pre : String) : Bool :=
  pre.toList.isPrefixOf s.toList

/-- Go `strings.HasSuffix(s, suf)`: true when `suf` is a final segment
of `s`. -/
def goHasSuf (s suf : String) : Bool :=
  suf.toList.isSuffixOf s.toList

/-- The standard base64 alphabet used by Go `base64.StdEncoding`. -/
def base64Table : List Char :=
  "ABCDEFGHIJKLMNOPQRSTUVWXYZabcdefghijklmnopqrstuvwxyz0123456789+/".toList

/-- Character of the standard base64 alphabet at index `n` (0 to 63). -/
def base64Char (n : Nat) : Char :=
  base64Table.getD n 'A'

/-- RFC 4648 standard base64 of a byte list, with padding, as Go
`base64.StdEncoding.EncodeToString` produces. -/
def base64EncodeBytes : List Nat → List Char
  | [] => []
  | [b1] =>
      [base64Char (b1 / 4), base64Char (b1 % 4 * 16), '=', '=']
  | [b1, b2] =>
      [base64Char (b1 / 4), base64Char (b1 % 4 * 16 + b2 / 16),
       base64Char (b2 % 16 * 4), '=']
  | b1 :: b2 :: b3 :: rest =>
      base64Char (b1 / 4) :: base64Char (b1 % 4 * 16 + b2 / 16) ::
      base64Char (b2 % 16 * 4 + b3 / 64) :: base64Char (b3 % 64) ::
      base64EncodeBytes rest

/-- Base64 of the bytes of a string. Credentials in this program are ASCII,
where the UTF-8 bytes Go encodes coincide with the character code points. -/
def base64Encode (s : String) : String :=
  String.mk (base64EncodeBytes (s.toList.map Char.toNat))

/-- The token the spec says loadConfig computes for a raw username/password
entry: `base64(username ++ ":" ++ password)`. -/
def specCredentialToken (a : RegistryAuth) : String :=
  base64Encode (a.Username ++ ":" ++ a.Password)

/-- The body of the range loop at src/main.go lines 75 to 77, acting on the
per-iteration copy `auth` of the map value: it sets the `Auth` field of that
copy to the base64 token. -/
def loadConfigAuthLoopBody (entry : String × RegistryAuth) : RegistryAuth :=
  { entry.2 with Auth := specCredentialToken entry.2 }

/-- The auth-processing phase of loadConfig, src/main.go lines 74 to 80.
When the parsed `auths` mapping is non-empty, the Go loop
`for _, auth := range config.Auths { auth.Auth = ... }` binds `auth` to a
copy of each map value; the assignment updates that copy, which is discarded
when the iteration ends, and nothing is ever written back into the map, so
the mapping the function returns is the parsed mapping unchanged. When the
mapping is nil or empty, the fallback `loadDefaultAuth` result is used
instead (passed in here as `fallback`). -/
def loadConfigAuthPhase (parsed : List (String × RegistryAuth))
    (fallback : List (String × RegistryAuth)) : List (String × RegistryAuth) :=
  if parsed.length > 0 then
    let _discardedCopies := parsed.map loadConfigAuthLoopBody
    parsed
  else
    fallback

/-- Pull options, the fields of `image.PullOptions` that src/main.go sets. -/
structure PullOptions where
  All : Bool
  RegistryAuth : String
deriving Repr, DecidableEq

/-- Push options, the fields of `image.PushOptions` that src/main.go sets. -/
structure PushOptions where
  All : Bool
  RegistryAuth : String
deriving Repr, DecidableEq

/-- One iteration of the credential loop at src/main.go lines 173 to 180:
an entry whose key is a prefix of the source reference overwrites the pull
token, and one whose key is a prefix of the target reference overwrites the
push token (both tests run on every entry). -/
def resolveStep (img : ImageConfig) (acc : PullOptions × PushOptions)
    (entry : String × RegistryAuth) : PullOptions × PushOptions :=
  let acc1 :=
    if goHasPre img.Source entry.1 then
      ({ acc.1 with RegistryAuth := entry.2.Auth }, acc.2)
    else acc
  if goHasPre img.Target entry.1 then
    (acc1.1, { acc1.2 with RegistryAuth := entry.2.Auth })
  else acc1

/-- The credential-resolution loop inside the goroutine closure of
processImages, src/main.go lines 166 to 181: both option records start as
`{All: true}` with an empty `RegistryAuth`, then every mapping entry is
tested by `resolveStep` in iteration order. -/
def resolveJobOptions (auths : List (String × RegistryAuth))
    (img : ImageConfig) : PullOptions × PushOptions :=
  auths.foldl (resolveStep img) (⟨true, ""⟩, ⟨true, ""⟩)

/-- A streamed response body as the job sees it: draining it either succeeds
or yields an error (the value of `readAllToDiscard` in src/main.go). -/
structure RespBody where
  drainErr : Option String
deriving Repr, DecidableEq

/-- The docker engine operations used by one sync job, as an environment of
result-valued functions: `imagePull ref opts` is what `cli.ImagePull` returns
for that call (an error, or a response body), and likewise for tag and push. -/
structure SyncEngine where
  imagePull : String → PullOptions → Except String RespBody
  imageTag : String → String → Option String
  imagePush : String → PushOptions → Except String RespBody

/-- A remote call the job performs, recorded in order. -/
inductive SyncAction where
  | pullCall (ref : String)
  | tagCall (src tgt : String)
  | pushCall (ref : String)
deriving Repr, DecidableEq

/-- Mirrors `processImage` in src/main.go lines 194 to 224: pull the source
(abort with a wrapped error if the call or the drain fails), tag source to
target (abort on error), push the target (abort if the call or the drain
fails). The second component records every remote call made, in order. -/
def processImage (eng : SyncEngine) (img : ImageConfig)
    (pull : PullOptions) (push : PushOptions) :
    Except String Unit × List SyncAction :=
  match eng.imagePull img.Source pull with
  | .error e =>
      (.error ("pull image " ++ img.Source ++ " failed: " ++ e),
       [.pullCall img.Source])
  | .ok body =>
    match body.drainErr with
    | some re =>
        (.error ("error while pulling image " ++ img.Source ++ ": " ++ re),
         [.pullCall img.Source])
    | none =>
      match eng.imageTag img.Source img.Target with
      | some e =>
          (.error ("tag image " ++ img.Source ++ " to " ++ img.Target
                    ++ " failed: " ++ e),
           [.pullCall img.Source, .tagCall img.Source img.Target])
      | none =>
        match eng.imagePush img.Target push with
        | .error e =>
            (.error ("push image " ++ img.Target ++ " failed: " ++ e),
             [.pullCall img.Source, .tagCall img.Source img.Target,
              .pushCall img.Target])
        | .ok body2 =>
          match body2.drainErr with
          | some re =>
              (.error ("error while pushing image " ++ img.Target ++ ": " ++ re),
               [.pullCall img.Source, .tagCall img.Source img.Target,
                .pushCall img.Target])
          | none =>
              (.ok (),
               [.pullCall img.Source, .tagCall img.Source img.Target,
                .pushCall img.Target])

/-- One goroutine of processImages: build the pull and push options by the
credential loop, then run processImage on the copied spec. -/
def runJob (eng : SyncEngine) (auths : List (String × RegistryAuth))
    (img : ImageConfig) : Except String Unit × List SyncAction :=
  let opts := resolveJobOptions auths img
  processImage eng img opts.1 opts.2

/-- All jobs of one cycle. `errgroup.Group` with no derived context imposes no
cancellation: every goroutine runs to completion regardless of the outcomes of
its siblings, so the result of the job of each spec is a function of that spec
alone (plus the shared read-only auths and engine). -/
def runJobs (eng : SyncEngine) (auths : List (String × RegistryAuth))
    (imgs : List ImageConfig) : List (Except String Unit × List SyncAction) :=
  imgs.map (runJob eng auths)

/-- Combining step of the wait: keep the earliest error seen, ignore every
later result. -/
def waitStep (acc : Option String) (r : Except String Unit) : Option String :=
  match acc, r with
  | none, .error e => some e
  | _, _ => acc

/-- `errgroup.Group.Wait`: block until every job has returned, then return the
first non-nil error among them, if any. The real first error is first in
completion time; the embedding fixes the order in which the results are
inspected to the list order, which does not affect whether an error is
returned, only which one. -/
def errgroupWait (results : List (Except String Unit)) : Option String :=
  results.foldl waitStep none

/-- Mirrors `processImages` in src/main.go lines 161 to 186: spawn one job per
configured image pair, wait for all, return the first error. -/
def processImages (eng : SyncEngine) (config : Config) : Option String :=
  errgroupWait ((runJobs eng config.Auths config.Images).map Prod.fst)

/-- An entry of the list `cli.ImageList` returns, with the fields src/main.go
reads: identifier, repo tags, size. -/
structure ImageSummary where
  ID : String
  RepoTags : List String
  Size : Int
deriving Repr, DecidableEq

/-- The guard of the removal in pruneUnusedImages, src/main.go lines 240 to
243, transcribed with its two successive tests: first
`if len(img.RepoTags) > 0 { continue }`, then
`if len(img.RepoTags) == 0 || (len(img.RepoTags) == 1 &&
strings.HasSuffix(img.RepoTags[0], ":<none>"))`. Note the first test already
skips every image with at least one tag, so the second disjunct can never
fire. -/
def pruneSelects (img : ImageSummary) : Bool :=
  if img.RepoTags.length > 0 then false
  else
    (img.RepoTags.length == 0) ||
      (img.RepoTags.length == 1 &&
        goHasSuf (img.RepoTags.headD "") ":<none>")

/-- Result of one prune pass: the identifiers removal was invoked on, in
order, and the reported deleted count and reclaimed size. -/
structure PruneOutcome where
  attempts : List String
  deleted : Nat
  reclaimed : Int
deriving Repr, DecidableEq

/-- One iteration of the prune loop body: if the image passes the guard,
invoke force removal (`removeOk img.ID = false` stands for `cli.ImageRemove`
returning an error); a failed removal is logged and skipped with `continue`,
a successful one adds the image size and bumps the count. -/
def pruneStep (removeOk : String → Bool) (acc : PruneOutcome)
    (img : ImageSummary) : PruneOutcome :=
  if pruneSelects img then
    if removeOk img.ID then
      { attempts := acc.attempts ++ [img.ID],
        deleted := acc.deleted + 1,
        reclaimed := acc.reclaimed + img.Size }
    else
      { acc with attempts := acc.attempts ++ [img.ID] }
  else acc

/-- Mirrors the loop of `pruneUnusedImages`, src/main.go lines 239 to 257:
run `pruneStep` over every listed image, starting from zero counters. -/
def pruneRun (removeOk : String → Bool) (imgs : List ImageSummary) :
    PruneOutcome :=
  imgs.foldl (pruneStep removeOk) ⟨[], 0, 0⟩

/-- The config-reload step at the end of each cycle, src/main.go lines 152 to
154: `if newConfig, e := loadConfig(*cfg); e == nil { config = newConfig }`.
A failed reload leaves the binding untouched; a successful one rebinds it to
the freshly loaded value wholesale. -/
def reloadStep (current : Config) (reload : Except String Config) : Config :=
  match reload with
  | .ok newConfig => newConfig
  | .error _ => current

/-- Environment of `loadDefaultAuth`, src/main.go lines 85 to 114: the home
directory lookup, the stat of `~/.docker/config.json`, the file read, and the
JSON unmarshal of that file into `DockerConfig` (whose auths mapping has only
the `auth` blob field). Each is the result the corresponding call returns. -/
structure DefaultAuthEnv where
  userHomeDir : Except String String
  statDockerConfig : Option String
  readDockerConfig : Except String String
  parseDockerConfig : Except String (List (String × String))

/-- Mirrors `loadDefaultAuth`: every failure (no home directory, stat error,
read error, unmarshal error) returns the auths map built so far, which is
empty; on success each docker-config entry is carried over with only its
`Auth` blob set. -/
def loadDefaultAuth (env : DefaultAuthEnv) : List (String × RegistryAuth) :=
  match env.userHomeDir with
  | .error _ => []
  | .ok _home =>
    match env.statDockerConfig with
    | some _ => []
    | none =>
      match env.readDockerConfig with
      | .error _ => []
      | .ok _data =>
        match env.parseDockerConfig with
        | .error _ => []
        | .ok entries =>
            entries.map (fun p => (p.1, { Username := "", Password := "",
                                          Auth := p.2 }))

/-- Environment of `loadConfig`, src/main.go lines 50 to 83: the HTTP fetch
(its outer error is the `http.Get` failure, the inner one a failure of
`io.ReadAll` on the response body), the local file read, the JSON unmarshal of
the body, and the environment of the default-auth fallback. -/
structure LoadEnv where
  httpGet : String → Except String (Except String String)
  readFile : String → Except String String
  parseConfig : String → Except String Config
  defaultAuth : DefaultAuthEnv

/-- Mirrors `loadConfig`: fetch the body over HTTP when the path starts with
`http`, read it from disk otherwise; wrap fetch, read and parse failures in
their respective messages; then run the auth-processing phase (which never
fails) and return the config. -/
def loadConfig (env : LoadEnv) (path : String) : Except String Config :=
  let body : Except String String :=
    if goHasPre path "http" then
      match env.httpGet path with
      | .error he => .error ("failed to fetch config: " ++ he)
      | .ok readAllResult =>
        match readAllResult with
        | .error re => .error ("failed to read config: " ++ re)
        | .ok b => .ok b
    else
      match env.readFile path with
      | .error re => .error ("failed to read config: " ++ re)
      | .ok b => .ok b
  match body with
  | .error e => .error e
  | .ok b =>
    match env.parseConfig b with
    | .error pe => .error ("failed to parse config: " ++ pe)
    | .ok parsed =>
        .ok { parsed with
                Auths := loadConfigAuthPhase parsed.Auths
                           (loadDefaultAuth env.defaultAuth) }

/-- The effect of one credential-loop iteration on the pull options alone. -/
def pullStep (src : String) (a : PullOptions)
    (entry : String × RegistryAuth) : PullOptions :=
  if goHasPre src entry.1 then { a with RegistryAuth := entry.2.Auth } else a

/-- The effect of one credential-loop iteration on the push options alone. -/
def pushStep (tgt : String) (a : PushOptions)
    (entry : String × RegistryAuth) : PushOptions :=
  if goHasPre tgt entry.1 then { a with RegistryAuth := entry.2.Auth } else a

/-- The pull half of the credential loop, in isolation. -/
def pullFold (src : String) (auths : List (String × RegistryAuth))
    (a : PullOptions) : PullOptions :=
  auths.foldl (pullStep src) a

/-- The push half of the credential loop, in isolation. -/
def pushFold (tgt : String) (auths : List (String × RegistryAuth))
    (a : PushOptions) : PushOptions :=
  auths.foldl (pushStep tgt) a

lemma resolveStep_fst (img : ImageConfig) (acc : PullOptions × PushOptions)
    (entry : String × RegistryAuth) :
    (resolveStep img acc entry).1 = pullStep img.Source acc.1 entry := by
  simp only [resolveStep, pullStep]
  cases hs : goHasPre img.Source entry.1 <;>
    cases ht : goHasPre img.Target entry.1 <;> simp

lemma resolveStep_snd (img : ImageConfig) (acc : PullOptions × PushOptions)
    (entry : String × RegistryAuth) :
    (resolveStep img acc entry).2 = pushStep img.Target acc.2 entry := by
  simp only [resolveStep, pushStep]
  cases hs : goHasPre img.Source entry.1 <;>
    cases ht : goHasPre img.Target entry.1 <;> simp

lemma foldl_resolveStep_fst (auths : List (String × RegistryAuth))
    (img : ImageConfig) :
    ∀ acc, (auths.foldl (resolveStep img) acc).1 =
      pullFold img.Source auths acc.1 := by
  induction auths with
  | nil => intro acc; rfl
  | cons e rest ih =>
      intro acc
      simp only [List.foldl_cons, pullFold] at *
      rw [ih, resolveStep_fst]

lemma foldl_resolveStep_snd (auths : List (String × RegistryAuth))
    (img : ImageConfig) :
    ∀ acc, (auths.foldl (resolveStep img) acc).2 =
      pushFold img.Target auths acc.2 := by
  induction auths with
  | nil => intro acc; rfl
  | cons e rest ih =>
      intro acc
      simp only [List.foldl_cons, pushFold] at *
      rw [ih, resolveStep_snd]

lemma resolveJobOptions_fst (auths : List (String × RegistryAuth))
    (img : ImageConfig) :
    (resolveJobOptions auths img).1 = pullFold img.Source auths ⟨true, ""⟩ :=
  foldl_resolveStep_fst auths img _

lemma resolveJobOptions_snd (auths : List (String × RegistryAuth))
    (img : ImageConfig) :
    (resolveJobOptions auths img).2 = pushFold img.Target auths ⟨true, ""⟩ :=
  foldl_resolveStep_snd auths img _

lemma pullStep_All (src : String) (a : PullOptions)
    (entry : String × RegistryAuth) : (pullStep src a entry).All = a.All := by
  simp only [pullStep]; split <;> rfl

lemma pushStep_All (tgt : String) (a : PushOptions)
    (entry : String × RegistryAuth) : (pushStep tgt a entry).All = a.All := by
  simp only [pushStep]; split <;> rfl

lemma pullFold_no_match (src : String) :
    ∀ (auths : List (String × RegistryAuth)) (a : PullOptions),
      (∀ e ∈ auths, goHasPre src e.1 = false) → pullFold src auths a = a := by
  intro auths
  induction auths with
  | nil => intro a _; rfl
  | cons e rest ih =>
      intro a h
      have he : goHasPre src e.1 = false := h e (List.mem_cons_self e rest)
      have hstep : pullStep src a e = a := by simp [pullStep, he]
      simp only [pullFold, List.foldl_cons, hstep]
      exact ih a (fun x hx => h x (List.mem_cons_of_mem e hx))

lemma pullFold_shape (src : String) :
    ∀ (auths : List (String × RegistryAuth)) (a : PullOptions),
      pullFold src auths a = a ∨
        ∃ e ∈ auths, goHasPre src e.1 = true ∧
          pullFold src auths a = ⟨a.All, e.2.Auth⟩ := by
  intro auths
  induction auths with
  | nil => intro a; exact Or.inl rfl
  | cons e rest ih =>
      intro a
      have hfold : pullFold src (e :: rest) a = pullFold src rest (pullStep src a e) := rfl
      rcases ih (pullStep src a e) with h | ⟨e2, he2, hm, heq⟩
      · cases hmatch : goHasPre src e.1 with
        | false =>
            left
            rw [hfold, h]
            simp [pullStep, hmatch]
        | true =>
            right
            refine ⟨e, List.mem_cons_self e rest, hmatch, ?_⟩
            rw [hfold, h]
            simp [pullStep, hmatch]
      · right
        refine ⟨e2, List.mem_cons_of_mem e he2, hm, ?_⟩
        rw [hfold, heq, pullStep_All]

lemma pullFold_match (src : String) :
    ∀ (auths : List (String × RegistryAuth)) (a : PullOptions),
      (∃ e ∈ auths, goHasPre src e.1 = true) →
        ∃ e ∈ auths, goHasPre src e.1 = true ∧
          pullFold src auths a = ⟨a.All, e.2.Auth⟩ := by
  intro auths
  induction auths with
  | nil =>
      intro a h
      simp at h
  | cons e rest ih =>
      intro a h
      have hfold : pullFold src (e :: rest) a = pullFold src rest (pullStep src a e) := rfl
      by_cases hr : ∃ e2 ∈ rest, goHasPre src e2.1 = true
      · obtain ⟨e2, he2, hm, heq⟩ := ih (pullStep src a e) hr
        refine ⟨e2, List.mem_cons_of_mem e he2, hm, ?_⟩
        rw [hfold, heq, pullStep_All]
      · obtain ⟨x, hx, hmx⟩ := h
        rcases List.mem_cons.mp hx with hxe | hxr
        · subst hxe
          have hnone : ∀ e2 ∈ rest, goHasPre src e2.1 = false := by
            intro e2 he2
            by_contra hc
            exact hr ⟨e2, he2, by
              cases hb : goHasPre src e2.1 with
              | false => exact absurd hb hc
              | true => rfl⟩
          refine ⟨x, List.mem_cons_self x rest, hmx, ?_⟩
          rw [hfold, pullFold_no_match src rest _ hnone]
          simp [pullStep, hmx]
        · exact absurd ⟨x, hxr, hmx⟩ hr

lemma pushFold_no_match (tgt : String) :
    ∀ (auths : List (String × RegistryAuth)) (a : PushOptions),
      (∀ e ∈ auths, goHasPre tgt e.1 = false) → pushFold tgt auths a = a := by
  intro auths
  induction auths with
  | nil => intro a _; rfl
  | cons e rest ih =>
      intro a h
      have he : goHasPre tgt e.1 = false := h e (List.mem_cons_self e rest)
      have hstep : pushStep tgt a e = a := by simp [pushStep, he]
      simp only [pushFold, List.foldl_cons, hstep]
      exact ih a (fun x hx => h x (List.mem_cons_of_mem e hx))

lemma pushFold_shape (tgt : String) :
    ∀ (auths : List (String × RegistryAuth)) (a : PushOptions),
      pushFold tgt auths a = a ∨
        ∃ e ∈ auths, goHasPre tgt e.1 = true ∧
          pushFold tgt auths a = ⟨a.All, e.2.Auth⟩ := by
  intro auths
  induction auths with
  | nil => intro a; exact Or.inl rfl
  | cons e rest ih =>
      intro a
      have hfold : pushFold tgt (e :: rest) a = pushFold tgt rest (pushStep tgt a e) := rfl
      rcases ih (pushStep tgt a e) with h | ⟨e2, he2, hm, heq⟩
      · cases hmatch : goHasPre tgt e.1 with
        | false =>
            left
            rw [hfold, h]
            simp [pushStep, hmatch]
        | true =>
            right
            refine ⟨e, List.mem_cons_self e rest, hmatch, ?_⟩
            rw [hfold, h]
            simp [pushStep, hmatch]
      · right
        refine ⟨e2, List.mem_cons_of_mem e he2, hm, ?_⟩
        rw [hfold, heq, pushStep_All]

lemma pushFold_match (tgt : String) :
    ∀ (auths : List (String × RegistryAuth)) (a : PushOptions),
      (∃ e ∈ auths, goHasPre tgt e.1 = true) →
        ∃ e ∈ auths, goHasPre tgt e.1 = true ∧
          pushFold tgt auths a = ⟨a.All, e.2.Auth⟩ := by
  intro auths
  induction auths with
  | nil =>
      intro a h
      simp at h
  | cons e rest ih =>
      intro a h
      have hfold : pushFold tgt (e :: rest) a = pushFold tgt rest (pushStep tgt a e) := rfl
      by_cases hr : ∃ e2 ∈ rest, goHasPre tgt e2.1 = true
      · obtain ⟨e2, he2, hm, heq⟩ := ih (pushStep tgt a e) hr
        refine ⟨e2, List.mem_cons_of_mem e he2, hm, ?_⟩
        rw [hfold, heq, pushStep_All]
      · obtain ⟨x, hx, hmx⟩ := h
        rcases List.mem_cons.mp hx with hxe | hxr
        · subst hxe
          have hnone : ∀ e2 ∈ rest, goHasPre tgt e2.1 = false := by
            intro e2 he2
            by_contra hc
            exact hr ⟨e2, he2, by
              cases hb : goHasPre tgt e2.1 with
              | false => exact absurd hb hc
              | true => rfl⟩
          refine ⟨x, List.mem_cons_self x rest, hmx, ?_⟩
          rw [hfold, pushFold_no_match tgt rest _ hnone]
          simp [pushStep, hmx]
        · exact absurd ⟨x, hxr, hmx⟩ hr

/-- C7: the pull credential a job ends up with depends only on the source
reference (two runs differing only in the target resolve the same pull
options), and the push credential only on the target reference (two runs
differing only in the source resolve the same push options). -/
theorem pull_cred_only_source_push_cred_only_target
    (auths : List (String × RegistryAuth)) (s t t2 u u2 v : String) :
    (resolveJobOptions auths ⟨s, t⟩).1 = (resolveJobOptions auths ⟨s, t2⟩).1 ∧
    (resolveJobOptions auths ⟨u, v⟩).2 = (resolveJobOptions auths ⟨u2, v⟩).2 := by
  constructor
  · rw [resolveJobOptions_fst, resolveJobOptions_fst]
  · rw [resolveJobOptions_snd, resolveJobOptions_snd]

/-- C9: per direction a single token is bound: the pull token is either left
empty or is the token of some mapping entry whose key is a prefix of the
source reference, and whenever at least one key matches the source the bound
pull token is the token of some matching entry; symmetrically for the push
token and the target reference. -/
theorem resolve_binds_token_of_matching_entry
    (auths : List (String × RegistryAuth)) (img : ImageConfig) :
    ((resolveJobOptions auths img).1.RegistryAuth = "" ∨
       ∃ e ∈ auths, goHasPre img.Source e.1 = true ∧
         (resolveJobOptions auths img).1.RegistryAuth = e.2.Auth) ∧
    ((∃ e ∈ auths, goHasPre img.Source e.1 = true) →
       ∃ e ∈ auths, goHasPre img.Source e.1 = true ∧
         (resolveJobOptions auths img).1.RegistryAuth = e.2.Auth) ∧
    ((resolveJobOptions auths img).2.RegistryAuth = "" ∨
       ∃ e ∈ auths, goHasPre img.Target e.1 = true ∧
         (resolveJobOptions auths img).2.RegistryAuth = e.2.Auth) ∧
    ((∃ e ∈ auths, goHasPre img.Target e.1 = true) →
       ∃ e ∈ auths, goHasPre img.Target e.1 = true ∧
         (resolveJobOptions auths img).2.RegistryAuth = e.2.Auth) := by
  refine ⟨?_, ?_, ?_, ?_⟩
  · rw [resolveJobOptions_fst]
    rcases pullFold_shape img.Source auths ⟨true, ""⟩ with h | ⟨e, he, hm, heq⟩
    · left; rw [h]
    · right; exact ⟨e, he, hm, by rw [heq]⟩
  · intro hex
    obtain ⟨e, he, hm, heq⟩ := pullFold_match img.Source auths ⟨true, ""⟩ hex
    exact ⟨e, he, hm, by rw [resolveJobOptions_fst, heq]⟩
  · rw [resolveJobOptions_snd]
    rcases pushFold_shape img.Target auths ⟨true, ""⟩ with h | ⟨e, he, hm, heq⟩
    · left; rw [h]
    · right; exact ⟨e, he, hm, by rw [heq]⟩
  · intro hex
    obtain ⟨e, he, hm, heq⟩ := pushFold_match img.Target auths ⟨true, ""⟩ hex
    exact ⟨e, he, hm, by rw [resolveJobOptions_snd, heq]⟩

/-- Witness for C9: on a one-entry mapping whose key matches the concrete
source reference, the theorem produces the matching entry and its token. -/
theorem resolve_binds_token_of_matching_entry_witness :
    ∃ e ∈ ([("reg", RegistryAuth.mk "u" "p" "tok")] : List (String × RegistryAuth)),
      goHasPre "reg/app:1" e.1 = true ∧
      (resolveJobOptions [("reg", RegistryAuth.mk "u" "p" "tok")]
        ⟨"reg/app:1", "other/app:1"⟩).1.RegistryAuth = e.2.Auth := by
  have h := resolve_binds_token_of_matching_entry
    [("reg", RegistryAuth.mk "u" "p" "tok")] ⟨"reg/app:1", "other/app:1"⟩
  exact h.2.1 ⟨("reg", RegistryAuth.mk "u" "p" "tok"), by simp, by decide⟩

/-- C2: when the pull call errors, processImage returns the wrapped pull
error and its call trace is exactly the pull call; likewise when draining the
pull response body errors; in either failure mode no tag call and no push
call appears in the trace; and the jobs of the other entries of the cycle are
each computed from their own spec alone, unchanged by this failure. -/
theorem processImage_pull_failure_aborts (eng : SyncEngine)
    (img : ImageConfig) (pull : PullOptions) (push : PushOptions) :
    (∀ e, eng.imagePull img.Source pull = .error e →
       processImage eng img pull push =
         (.error ("pull image " ++ img.Source ++ " failed: " ++ e),
          [SyncAction.pullCall img.Source])) ∧
    (∀ body re, eng.imagePull img.Source pull = .ok body →
       body.drainErr = some re →
       processImage eng img pull push =
         (.error ("error while pulling image " ++ img.Source ++ ": " ++ re),
          [SyncAction.pullCall img.Source])) ∧
    (((∃ e, eng.imagePull img.Source pull = .error e) ∨
        (∃ body re, eng.imagePull img.Source pull = .ok body ∧
          body.drainErr = some re)) →
       (∀ s t, SyncAction.tagCall s t ∉ (processImage eng img pull push).2) ∧
       (∀ r, SyncAction.pushCall r ∉ (processImage eng img pull push).2)) ∧
    (∀ (auths : List (String × RegistryAuth)) (l1 l2 : List ImageConfig),
       runJobs eng auths (l1 ++ img :: l2) =
         runJobs eng auths l1 ++ runJob eng auths img :: runJobs eng auths l2) := by
  have hcall : ∀ e, eng.imagePull img.Source pull = .error e →
      processImage eng img pull push =
        (.error ("pull image " ++ img.Source ++ " failed: " ++ e),
         [SyncAction.pullCall img.Source]) := by
    intro e he
    simp [processImage, he]
  have hdrain : ∀ body re, eng.imagePull img.Source pull = .ok body →
      body.drainErr = some re →
      processImage eng img pull push =
        (.error ("error while pulling image " ++ img.Source ++ ": " ++ re),
         [SyncAction.pullCall img.Source]) := by
    intro body re hb hd
    simp [processImage, hb, hd]
  refine ⟨hcall, hdrain, ?_, ?_⟩
  · rintro (⟨e, he⟩ | ⟨body, re, hb, hd⟩)
    · rw [hcall e he]
      constructor
      · intro s t hmem
        simp at hmem
      · intro r hmem
        simp at hmem
    · rw [hdrain body re hb hd]
      constructor
      · intro s t hmem
        simp at hmem
      · intro r hmem
        simp at hmem
  · intro auths l1 l2
    simp [runJobs]

/-- Witness for C2: with a concrete engine whose pull call fails, the job
returns the wrapped pull error and its trace holds only the pull call. -/
theorem processImage_pull_failure_aborts_witness :
    processImage
      { imagePull := fun _ _ => .error "net down",
        imageTag := fun _ _ => none,
        imagePush := fun _ _ => .ok ⟨none⟩ }
      ⟨"a/x:1", "b/x:1"⟩ ⟨true, ""⟩ ⟨true, ""⟩ =
    (.error "pull image a/x:1 failed: net down", [SyncAction.pullCall "a/x:1"]) := by
  have h := processImage_pull_failure_aborts
    { imagePull := fun _ _ => .error "net down",
      imageTag := fun _ _ => none,
      imagePush := fun _ _ => .ok ⟨none⟩ }
    ⟨"a/x:1", "b/x:1"⟩ ⟨true, ""⟩ ⟨true, ""⟩
  exact h.1 "net down" rfl

lemma foldl_waitStep_some (rs : List (Except String Unit)) (e : String) :
    rs.foldl waitStep (some e) = some e := by
  induction rs with
  | nil => rfl
  | cons r rest ih =>
      have hs : waitStep (some e) r = some e := by cases r <;> rfl
      simp only [List.foldl_cons, hs, ih]

lemma errgroupWait_none_iff (rs : List (Except String Unit)) :
    errgroupWait rs = none ↔ ∀ r ∈ rs, r = .ok () := by
  induction rs with
  | nil => simp [errgroupWait]
  | cons r rest ih =>
      cases r with
      | ok u =>
          cases u
          simpa [errgroupWait, waitStep, List.foldl_cons] using ih
      | error e =>
          simp only [errgroupWait, List.foldl_cons, waitStep,
            foldl_waitStep_some]
          simp

lemma errgroupWait_first_error (pre : List (Except String Unit)) (e : String)
    (rest : List (Except String Unit)) (h : ∀ r ∈ pre, r = .ok ()) :
    errgroupWait (pre ++ .error e :: rest) = some e := by
  induction pre with
  | nil =>
      simp only [List.nil_append, errgroupWait, List.foldl_cons, waitStep]
      exact foldl_waitStep_some rest e
  | cons r pre2 ih =>
      have hr : r = .ok () := h r (List.mem_cons_self r pre2)
      subst hr
      simp only [List.cons_append, errgroupWait, List.foldl_cons, waitStep]
      exact ih (fun x hx => h x (List.mem_cons_of_mem _ hx))

/-- C3 (amended): the orchestrator runs one job per configured SyncSpec and
its return is computed only after the result of every job is in; a failure in
one job neither cancels nor skips any other job (the job list over any
surrounding entries is unchanged); the return is nil exactly when every job
succeeded, and otherwise it is the error of the first failing job, later
errors being dropped rather than aggregated. -/
theorem processImages_runs_all_returns_first_error (eng : SyncEngine)
    (config : Config) :
    (runJobs eng config.Auths config.Images).length = config.Images.length ∧
    (∀ (l1 l2 : List ImageConfig) (j : ImageConfig),
       runJobs eng config.Auths (l1 ++ j :: l2) =
         runJobs eng config.Auths l1 ++
           runJob eng config.Auths j :: runJobs eng config.Auths l2) ∧
    (processImages eng config = none ↔
       ∀ r ∈ (runJobs eng config.Auths config.Images).map Prod.fst,
         r = .ok ()) ∧
    (∀ (pre : List (Except String Unit)) (e : String)
       (rest : List (Except String Unit)),
       (runJobs eng config.Auths config.Images).map Prod.fst =
         pre ++ .error e :: rest →
       (∀ r ∈ pre, r = .ok ()) →
       processImages eng config = some e) := by
  refine ⟨by simp [runJobs], ?_, ?_, ?_⟩
  · intro l1 l2 j
    simp [runJobs]
  · exact errgroupWait_none_iff _
  · intro pre e rest hsplit hpre
    simp only [processImages, hsplit]
    exact errgroupWait_first_error pre e rest hpre

/-- An engine whose pull call fails for every reference: the first configured
source fails with E1, every other one with the given message. -/
def pullsFailEngine (later : String) : SyncEngine :=
  { imagePull := fun r _ => if r == "a/x" then .error "E1" else .error later,
    imageTag := fun _ _ => none,
    imagePush := fun _ _ => .ok ⟨none⟩ }

/-- A configuration with two image pairs and no credentials. -/
def twoSpecConfig : Config :=
  { Images := [⟨"a/x", "t/x"⟩, ⟨"b/y", "t/y"⟩],
    Auths := [],
    Duration := 60,
    DisablePrune := false }

/-- Witness for C3 (amended): on a concrete two-spec cycle whose first job
fails, both jobs are present in the job list and the orchestrator returns the
first error. -/
theorem processImages_runs_all_returns_first_error_witness :
    processImages (pullsFailEngine "E2") twoSpecConfig =
      some "pull image a/x failed: E1" := by
  have h := processImages_runs_all_returns_first_error
    (pullsFailEngine "E2") twoSpecConfig
  exact h.2.2.2 [] "pull image a/x failed: E1"
    [.error "pull image b/y failed: E2"] rfl (by intro r hr; simp at hr)

/-- Counterexample to C3 as stated: two cycles over the same two-spec
configuration in which both jobs fail, with different second-job errors,
produce the identical orchestrator return; the return carries only the first
error and cannot be an aggregate summary of the per-job errors. -/
theorem processImages_not_aggregate_counterexample :
    processImages (pullsFailEngine "E2") twoSpecConfig =
      some "pull image a/x failed: E1" ∧
    processImages (pullsFailEngine "E3") twoSpecConfig =
      some "pull image a/x failed: E1" ∧
    (runJobs (pullsFailEngine "E2") twoSpecConfig.Auths
        twoSpecConfig.Images).map Prod.fst =
      [.error "pull image a/x failed: E1",
       .error "pull image b/y failed: E2"] ∧
    (runJobs (pullsFailEngine "E3") twoSpecConfig.Auths
        twoSpecConfig.Images).map Prod.fst =
      [.error "pull image a/x failed: E1",
       .error "pull image b/y failed: E3"] ∧
    ("pull image b/y failed: E2" : String) ≠ "pull image b/y failed: E3" := by
  refine ⟨rfl, rfl, rfl, rfl, by decide⟩

lemma pruneSelects_eq_true_imp (img : ImageSummary)
    (h : pruneSelects img = true) : img.RepoTags = [] := by
  cases htags : img.RepoTags with
  | nil => rfl
  | cons t ts =>
      exfalso
      simp [pruneSelects, htags] at h

lemma pruneStep_attempts (removeOk : String → Bool) (acc : PruneOutcome)
    (img : ImageSummary) :
    (pruneStep removeOk acc img).attempts =
      if pruneSelects img then acc.attempts ++ [img.ID] else acc.attempts := by
  simp only [pruneStep]
  split
  · split <;> rfl
  · rfl

lemma mem_pruneFold_attempts (removeOk : String → Bool) :
    ∀ (imgs : List ImageSummary) (acc : PruneOutcome) (x : String),
      x ∈ (imgs.foldl (pruneStep removeOk) acc).attempts →
      x ∈ acc.attempts ∨
        ∃ img ∈ imgs, pruneSelects img = true ∧ img.ID = x := by
  intro imgs
  induction imgs with
  | nil =>
      intro acc x h
      exact Or.inl h
  | cons img rest ih =>
      intro acc x h
      simp only [List.foldl_cons] at h
      rcases ih (pruneStep removeOk acc img) x h with hacc | ⟨i, hi, hsel, hid⟩
      · rw [pruneStep_attempts] at hacc
        by_cases hs : pruneSelects img = true
        · rw [if_pos hs] at hacc
          rcases List.mem_append.mp hacc with h1 | h2
          · exact Or.inl h1
          · right
            refine ⟨img, List.mem_cons_self img rest, hs, ?_⟩
            have hx2 : x = img.ID := by simpa using h2
            exact hx2.symm
        · rw [if_neg (by simpa using hs)] at hacc
          exact Or.inl hacc
      · exact Or.inr ⟨i, List.mem_cons_of_mem img hi, hsel, hid⟩

/-- C5: removal is only ever invoked on images whose tag list is empty, so in
particular on images whose tag list is empty or holds only the sentinel
`:<none>` tag, and never on an image carrying an ordinary tag (every image
with a non-empty tag list fails the guard and is skipped). -/
theorem prune_removes_only_untagged (removeOk : String → Bool)
    (imgs : List ImageSummary) :
    (∀ x, x ∈ (pruneRun removeOk imgs).attempts →
       ∃ img ∈ imgs, img.ID = x ∧ img.RepoTags = []) ∧
    (∀ img ∈ imgs, img.RepoTags ≠ [] → pruneSelects img = false) := by
  constructor
  · intro x hx
    rcases mem_pruneFold_attempts removeOk imgs ⟨[], 0, 0⟩ x hx with h | ⟨i, hi, hsel, hid⟩
    · simp at h
    · exact ⟨i, hi, hid, pruneSelects_eq_true_imp i hsel⟩
  · intro img _ hne
    cases hsel : pruneSelects img with
    | false => rfl
    | true => exact absurd (pruneSelects_eq_true_imp img hsel) hne

/-- Witness for C5: on a concrete listing with one untagged image, the
identifier removal was invoked on belongs to an untagged listed image. -/
theorem prune_removes_only_untagged_witness :
    ∃ img ∈ ([⟨"sha256:aa", [], 10⟩] : List ImageSummary),
      img.ID = "sha256:aa" ∧ img.RepoTags = [] := by
  have h := prune_removes_only_untagged (fun _ => true) [⟨"sha256:aa", [], 10⟩]
  exact h.1 "sha256:aa" (by decide)

/-- C4 at its failing input: an image whose only tag is the sentinel
`repo:<none>` tag is skipped, not removed — the leading
`if len(img.RepoTags) > 0 { continue }` fires before the sentinel disjunct
can. The last conjunct shows the second half of the claim on untagged images:
a failed removal (removeOk false on the first identifier) still leaves the
removal attempt on the next image in place. -/
theorem prune_skips_sentinel_tagged_image :
    pruneSelects ⟨"sha256:dead", ["repo:<none>"], 123⟩ = false ∧
    goHasSuf "repo:<none>" ":<none>" = true ∧
    pruneRun (fun _ => true) [⟨"sha256:dead", ["repo:<none>"], 123⟩] =
      ⟨[], 0, 0⟩ ∧
    pruneRun (fun id => id == "sha256:bb")
      [⟨"sha256:aa", [], 5⟩, ⟨"sha256:bb", [], 7⟩] =
      ⟨["sha256:aa", "sha256:bb"], 1, 7⟩ := by
  refine ⟨rfl, by decide, rfl, by decide⟩

/-- C6: a failed reload leaves the configuration for the next cycle exactly
the previous one, each field included; a successful reload replaces it with
the freshly loaded value wholesale. -/
theorem reload_failure_keeps_previous_config (c n : Config) (e : String) :
    reloadStep c (.error e) = c ∧
    (reloadStep c (.error e)).Images = c.Images ∧
    (reloadStep c (.error e)).Auths = c.Auths ∧
    (reloadStep c (.error e)).Duration = c.Duration ∧
    (reloadStep c (.error e)).DisablePrune = c.DisablePrune ∧
    reloadStep c (.ok n) = n :=
  ⟨rfl, rfl, rfl, rfl, rfl, rfl⟩

/-- The parsed configuration of the C1 failing input: one image pair and one
raw username/password credential entry whose key matches the source. -/
def rawAuthParsedConfig : Config :=
  { Images := [⟨"reg/app:1", "tgt/app:1"⟩],
    Auths := [("reg", ⟨"u", "p", ""⟩)],
    Duration := 60,
    DisablePrune := false }

/-- A load environment whose file read and parse both succeed, producing
`rawAuthParsedConfig`. -/
def rawAuthLoadEnv : LoadEnv :=
  { httpGet := fun _ => .error "no network",
    readFile := fun _ => .ok "body",
    parseConfig := fun _ => .ok rawAuthParsedConfig,
    defaultAuth := { userHomeDir := .error "no home",
                     statDockerConfig := some "missing",
                     readDockerConfig := .error "unused",
                     parseDockerConfig := .error "unused" } }

/-- C1 at its failing input: the loop body does compute the base64 token
`dTpw` for the entry `u`/`p` on its per-iteration copy, but loadConfig
returns the mapping unchanged with the `Auth` field still empty, and the pull
token the job attaches for the matching source reference is the empty string,
not `base64("u:p")`. -/
theorem loadConfig_drops_encoded_token :
    loadConfig rawAuthLoadEnv "config.json" = .ok rawAuthParsedConfig ∧
    loadConfigAuthLoopBody ("reg", ⟨"u", "p", ""⟩) =
      { Username := "u", Password := "p", Auth := "dTpw" } ∧
    specCredentialToken ⟨"u", "p", ""⟩ = "dTpw" ∧
    (resolveJobOptions rawAuthParsedConfig.Auths
        ⟨"reg/app:1", "tgt/app:1"⟩).1.RegistryAuth = "" ∧
    ("" : String) ≠ "dTpw" := by
  refine ⟨rfl, by decide, by decide, by decide, by decide⟩

lemma loadDefaultAuth_failure (env : DefaultAuthEnv)
    (hfb : (∃ e, env.userHomeDir = .error e) ∨
           (∃ s, env.statDockerConfig = some s) ∨
           (∃ e, env.readDockerConfig = .error e) ∨
           (∃ e, env.parseDockerConfig = .error e)) :
    loadDefaultAuth env = [] := by
  unfold loadDefaultAuth
  rcases hfb with ⟨e, h⟩ | ⟨s, h⟩ | ⟨e, h⟩ | ⟨e, h⟩
  · rw [h]
  · cases hu : env.userHomeDir with
    | error _ => rfl
    | ok _ => rw [h]
  · cases hu : env.userHomeDir with
    | error _ => rfl
    | ok _ =>
        cases hs : env.statDockerConfig with
        | some _ => rfl
        | none => rw [h]
  · cases hu : env.userHomeDir with
    | error _ => rfl
    | ok _ =>
        cases hs : env.statDockerConfig with
        | some _ => rfl
        | none =>
            cases hrd : env.readDockerConfig with
            | error _ => rfl
            | ok _ => rw [h]

/-- C8: when the parsed configuration has an empty or absent auths mapping
and the local credential-store fallback fails (no home directory, stat
failure on the docker config file, unreadable file, or unparseable file),
loadConfig still returns the configuration without error, its auths mapping
is empty, and credential resolution against that empty mapping attaches the
empty token to both the pull and the push options of every job, so all sync
operations proceed unauthenticated. -/
theorem absent_auths_all_unauthenticated (env : LoadEnv) (path b : String)
    (cfg : Config)
    (hbody : (goHasPre path "http" = false ∧ env.readFile path = .ok b) ∨
             (goHasPre path "http" = true ∧ env.httpGet path = .ok (.ok b)))
    (hparse : env.parseConfig b = .ok cfg)
    (hempty : cfg.Auths = [])
    (hfb : (∃ e, env.defaultAuth.userHomeDir = .error e) ∨
           (∃ s, env.defaultAuth.statDockerConfig = some s) ∨
           (∃ e, env.defaultAuth.readDockerConfig = .error e) ∨
           (∃ e, env.defaultAuth.parseDockerConfig = .error e)) :
    loadConfig env path = .ok { cfg with Auths := [] } ∧
    (∀ img : ImageConfig,
       resolveJobOptions ([] : List (String × RegistryAuth)) img =
         (⟨true, ""⟩, ⟨true, ""⟩)) := by
  constructor
  · have hfallback := loadDefaultAuth_failure env.defaultAuth hfb
    rcases hbody with ⟨hpath, hread⟩ | ⟨hpath, hget⟩
    · simp only [loadConfig, hpath, Bool.false_eq_true, if_false, hread,
        hparse, hempty, hfallback, loadConfigAuthPhase, List.length_nil,
        gt_iff_lt, lt_self_iff_false]
    · simp only [loadConfig, hpath, if_true, hget, hparse, hempty,
        hfallback, loadConfigAuthPhase, List.length_nil, gt_iff_lt,
        lt_self_iff_false, if_false]
  · intro img
    rfl

/-- A load environment whose parse yields a configuration without auths and
whose default-auth fallback fails at every step. -/
def noAuthLoadEnv : LoadEnv :=
  { httpGet := fun _ => .error "no network",
    readFile := fun _ => .ok "body",
    parseConfig := fun _ =>
      .ok { Images := [⟨"a/x:1", "b/x:1"⟩], Auths := [],
            Duration := 60, DisablePrune := false },
    defaultAuth := { userHomeDir := .error "no home dir",
                     statDockerConfig := some "not found",
                     readDockerConfig := .error "unreadable",
                     parseDockerConfig := .error "unparseable" } }

/-- Witness for C8: the concrete no-auths environment loads successfully with
an empty auths mapping. -/
theorem absent_auths_all_unauthenticated_witness :
    loadConfig noAuthLoadEnv "config.json" =
      .ok { Images := [⟨"a/x:1", "b/x:1"⟩], Auths := [],
            Duration := 60, DisablePrune := false } := by
  have h := absent_auths_all_unauthenticated noAuthLoadEnv "config.json"
    "body"
    { Images := [⟨"a/x:1", "b/x:1"⟩], Auths := [],
      Duration := 60, DisablePrune := false }
    (Or.inl ⟨by decide, rfl⟩) rfl rfl (Or.inl ⟨"no home dir", rfl⟩)
  exact h.1

/-- C10: when the path starts with `http` the loaded result is unchanged by
any change of the file-reading environment (the config is fetched over HTTP),
and when it does not, the result is unchanged by any change of the HTTP
environment (the config is read from disk); the local-looking file name
`httpconfig.json` falls in the first case, so it is fetched over the network:
with a failing fetch, loading it reports the fetch failure even though the
file read would have succeeded. -/
theorem loadConfig_http_dispatch
    (hg hg2 : String → Except String (Except String String))
    (rf rf2 : String → Except String String)
    (pc : String → Except String Config) (da : DefaultAuthEnv)
    (path : String) :
    (goHasPre path "http" = true →
       loadConfig ⟨hg, rf, pc, da⟩ path = loadConfig ⟨hg, rf2, pc, da⟩ path) ∧
    (goHasPre path "http" = false →
       loadConfig ⟨hg2, rf, pc, da⟩ path = loadConfig ⟨hg, rf, pc, da⟩ path) ∧
    goHasPre "httpconfig.json" "http" = true ∧
    (∀ e, hg "httpconfig.json" = .error e →
       loadConfig ⟨hg, rf, pc, da⟩ "httpconfig.json" =
         .error ("failed to fetch config: " ++ e)) := by
  refine ⟨?_, ?_, by decide, ?_⟩
  · intro h
    simp [loadConfig, h]
  · intro h
    simp [loadConfig, h]
  · intro e he
    simp [loadConfig, he,
      (by decide : goHasPre "httpconfig.json" "http" = true)]

/-- Witness for C10: with a failing fetch environment, loading the local
file name `httpconfig.json` reports a fetch failure, not a file read. -/
theorem loadConfig_http_dispatch_witness :
    loadConfig noAuthLoadEnv "httpconfig.json" =
      .error "failed to fetch config: no network" := by
  have h := loadConfig_http_dispatch noAuthLoadEnv.httpGet
    noAuthLoadEnv.httpGet noAuthLoadEnv.readFile noAuthLoadEnv.readFile
    noAuthLoadEnv.parseConfig noAuthLoadEnv.defaultAuth "httpconfig.json"
  exact h.2.2.2 "no network" rfl

end RegistrySync
